import Mathlib

/-!
Verification of the quickenv library (quickenv.go).

Go strings are modelled as lists of byte values (`GoStr`).  Iteration with
`for _, c := range s` in Go decodes UTF-8, yielding U+FFFD for each invalid
byte; `decode` reproduces this, returning (code point, byte size) pairs.
-/

/-- A Go string: its sequence of byte values (each < 256). -/
abbrev GoStr := List Nat

/-- Whether a byte is a UTF-8 continuation byte (0x80-0xBF). -/
def isCont (b : Nat) : Bool := decide (0x80 ≤ b ∧ b ≤ 0xBF)

/-- Valid second byte for a three-byte sequence with lead byte `b0`
(Go's acceptRanges: E0 → A0-BF, ED → 80-9F, otherwise 80-BF). -/
def accept3 (b0 b1 : Nat) : Bool :=
  decide ((b0 = 0xE0 ∧ 0xA0 ≤ b1 ∧ b1 ≤ 0xBF) ∨
          (b0 = 0xED ∧ 0x80 ≤ b1 ∧ b1 ≤ 0x9F) ∨
          (b0 ≠ 0xE0 ∧ b0 ≠ 0xED ∧ 0x80 ≤ b1 ∧ b1 ≤ 0xBF))

/-- Valid second byte for a four-byte sequence with lead byte `b0`
(Go's acceptRanges: F0 → 90-BF, F4 → 80-8F, otherwise 80-BF). -/
def accept4 (b0 b1 : Nat) : Bool :=
  decide ((b0 = 0xF0 ∧ 0x90 ≤ b1 ∧ b1 ≤ 0xBF) ∨
          (b0 = 0xF4 ∧ 0x80 ≤ b1 ∧ b1 ≤ 0x8F) ∨
          (b0 ≠ 0xF0 ∧ b0 ≠ 0xF4 ∧ 0x80 ≤ b1 ∧ b1 ≤ 0xBF))

/-- UTF-8 decoding of a byte string with Go's `range` semantics: each step
yields a (code point, size) pair; an invalid or truncated sequence yields
(U+FFFD, 1), advancing one byte, exactly as Go's utf8.DecodeRuneInString.
The match is flattened over the length of the remaining input (a sequence
needing more bytes than remain is an error of size 1, as in Go); within each
shape, the branches on the lead byte `b0` are: ASCII; invalid lead
(continuation byte or overlong C0/C1); two-byte lead C2-DF; three-byte lead
E0-EF; four-byte lead F0-F4; and out-of-range F5-FF. -/
def decode : GoStr → List (Nat × Nat)
  | [] => []
  | [b0] =>
    if b0 < 0x80 then [(b0, 1)] else [(0xFFFD, 1)]
  | [b0, b1] =>
    if b0 < 0x80 then (b0, 1) :: decode [b1]
    else if b0 < 0xC2 then (0xFFFD, 1) :: decode [b1]
    else if b0 ≤ 0xDF then
      if isCont b1 then [((b0 - 0xC0) * 0x40 + (b1 - 0x80), 2)]
      else (0xFFFD, 1) :: decode [b1]
    else (0xFFFD, 1) :: decode [b1]
  | [b0, b1, b2] =>
    if b0 < 0x80 then (b0, 1) :: decode [b1, b2]
    else if b0 < 0xC2 then (0xFFFD, 1) :: decode [b1, b2]
    else if b0 ≤ 0xDF then
      if isCont b1 then ((b0 - 0xC0) * 0x40 + (b1 - 0x80), 2) :: decode [b2]
      else (0xFFFD, 1) :: decode [b1, b2]
    else if b0 ≤ 0xEF then
      if accept3 b0 b1 && isCont b2 then
        [((b0 - 0xE0) * 0x1000 + (b1 - 0x80) * 0x40 + (b2 - 0x80), 3)]
      else (0xFFFD, 1) :: decode [b1, b2]
    else (0xFFFD, 1) :: decode [b1, b2]
  | b0 :: b1 :: b2 :: b3 :: rest4 =>
    if b0 < 0x80 then (b0, 1) :: decode (b1 :: b2 :: b3 :: rest4)
    else if b0 < 0xC2 then (0xFFFD, 1) :: decode (b1 :: b2 :: b3 :: rest4)
    else if b0 ≤ 0xDF then
      if isCont b1 then ((b0 - 0xC0) * 0x40 + (b1 - 0x80), 2) :: decode (b2 :: b3 :: rest4)
      else (0xFFFD, 1) :: decode (b1 :: b2 :: b3 :: rest4)
    else if b0 ≤ 0xEF then
      if accept3 b0 b1 && isCont b2 then
        ((b0 - 0xE0) * 0x1000 + (b1 - 0x80) * 0x40 + (b2 - 0x80), 3) :: decode (b3 :: rest4)
      else (0xFFFD, 1) :: decode (b1 :: b2 :: b3 :: rest4)
    else if b0 ≤ 0xF4 then
      if accept4 b0 b1 && isCont b2 && isCont b3 then
        ((b0 - 0xF0) * 0x40000 + (b1 - 0x80) * 0x1000 + (b2 - 0x80) * 0x40 + (b3 - 0x80), 4)
          :: decode rest4
      else (0xFFFD, 1) :: decode (b1 :: b2 :: b3 :: rest4)
    else (0xFFFD, 1) :: decode (b1 :: b2 :: b3 :: rest4)

/-- The code points of a Go string, in order (what `for _, c := range s` yields). -/
def runeList (s : GoStr) : List Nat := (decode s).map (·.1)

/-- Model of Go's `unicode.IsLetter`, restricted to the code points this
repository's inputs exercise: it agrees with `unicode.IsLetter` on ASCII,
Latin-1, Latin Extended (U+0100-U+02C1) and Cyrillic (U+0400-U+052F), and on
U+FFFD (not a letter); all other code points are mapped to false. -/
def goIsLetter (c : Nat) : Bool :=
  decide ((0x41 ≤ c ∧ c ≤ 0x5A) ∨ (0x61 ≤ c ∧ c ≤ 0x7A) ∨
          c = 0xAA ∨ c = 0xB5 ∨ c = 0xBA ∨
          (0xC0 ≤ c ∧ c ≤ 0xD6) ∨ (0xD8 ≤ c ∧ c ≤ 0xF6) ∨ (0xF8 ≤ c ∧ c ≤ 0x2C1) ∨
          (0x400 ≤ c ∧ c ≤ 0x481) ∨ (0x48A ≤ c ∧ c ≤ 0x52F))

/-- Model of Go's `unicode.IsDigit` restricted to code points below U+0530,
where the decimal digits are exactly ASCII 0-9. -/
def goIsDigit (c : Nat) : Bool := decide (0x30 ≤ c ∧ c ≤ 0x39)

/-!
Model of Go's `strings.TrimSpace`.  It removes from both ends every rune with
the Unicode White_Space property: U+0009-U+000D, U+0020, U+0085, U+00A0,
U+1680, U+2000-U+200A, U+2028, U+2029, U+202F, U+205F, U+3000.  Trimming is
done by matching the (unique) UTF-8 encodings of these runes at the ends of
the byte string, which coincides with Go's rune-by-rune trimming because an
invalid sequence decodes to U+FFFD (not white space) and UTF-8 is
self-synchronizing.
-/

/-- Remove leading white-space runes (encodings matched at the front). -/
def trimLeftSpace : GoStr → GoStr
  | 0x09 :: r => trimLeftSpace r
  | 0x0A :: r => trimLeftSpace r
  | 0x0B :: r => trimLeftSpace r
  | 0x0C :: r => trimLeftSpace r
  | 0x0D :: r => trimLeftSpace r
  | 0x20 :: r => trimLeftSpace r
  | 0xC2 :: 0x85 :: r => trimLeftSpace r
  | 0xC2 :: 0xA0 :: r => trimLeftSpace r
  | 0xE1 :: 0x9A :: 0x80 :: r => trimLeftSpace r
  | 0xE2 :: 0x80 :: b :: r =>
    if (0x80 ≤ b ∧ b ≤ 0x8A) ∨ b = 0xA8 ∨ b = 0xA9 ∨ b = 0xAF then trimLeftSpace r
    else 0xE2 :: 0x80 :: b :: r
  | 0xE2 :: 0x81 :: 0x9F :: r => trimLeftSpace r
  | 0xE3 :: 0x80 :: 0x80 :: r => trimLeftSpace r
  | s => s

/-- Remove trailing white-space runes; the input is the reversed byte string,
so each pattern is a reversed UTF-8 encoding. -/
def trimRightRev : GoStr → GoStr
  | 0x09 :: r => trimRightRev r
  | 0x0A :: r => trimRightRev r
  | 0x0B :: r => trimRightRev r
  | 0x0C :: r => trimRightRev r
  | 0x0D :: r => trimRightRev r
  | 0x20 :: r => trimRightRev r
  | 0x85 :: 0xC2 :: r => trimRightRev r
  | 0xA0 :: 0xC2 :: r => trimRightRev r
  | 0x80 :: 0x9A :: 0xE1 :: r => trimRightRev r
  | 0x9F :: 0x81 :: 0xE2 :: r => trimRightRev r
  | 0x80 :: 0x80 :: 0xE3 :: r => trimRightRev r
  | b :: 0x80 :: 0xE2 :: r =>
    if (0x80 ≤ b ∧ b ≤ 0x8A) ∨ b = 0xA8 ∨ b = 0xA9 ∨ b = 0xAF then trimRightRev r
    else b :: 0x80 :: 0xE2 :: r
  | s => s

/-- Model of Go's `strings.TrimSpace`. -/
def trimSpace (s : GoStr) : GoStr := (trimRightRev (trimLeftSpace s).reverse).reverse

/-- `unquoteValue` from quickenv.go: strips surrounding single or double
quotes when both ends carry the same quote byte and the length is at least 2;
otherwise returns the input unchanged.  `value[1 : len(value)-1]` is
`(value.drop 1).dropLast`. -/
def unquoteValue (value : GoStr) : GoStr :=
  if 2 ≤ value.length then
    let first := value.headD 0
    let last := value.getLastD 0
    if (first = 0x22 ∧ last = 0x22) ∨ (first = 0x27 ∧ last = 0x27) then
      (value.drop 1).dropLast
    else value
  else value

/-- `isValidEnvKey` from quickenv.go.  Note the source inspects
`rune(key[0])` — the first **byte** reinterpreted as a code point — and then
ranges over `key[1:]`, i.e. decodes the remaining bytes as UTF-8. -/
def isValidEnvKey (key : GoStr) : Bool :=
  match key with
  | [] => false
  | b0 :: rest =>
    if !goIsLetter b0 && !(b0 == 0x5F) then false
    else (decode rest).all fun p => goIsLetter p.1 || goIsDigit p.1 || p.1 == 0x5F

/-- The scan loop of `parseLine`: walk the decoded runes with their byte
sizes, tracking quote state, and return the byte index of the first `=`
found outside quotes.  `i` is the byte index of the current rune, `inQ` and
`qc` the quote state (`quoteChar` starts as the zero rune in the source). -/
def findEq : List (Nat × Nat) → Nat → Bool → Nat → Option Nat
  | [], _, _, _ => none
  | (c, sz) :: rest, i, inQ, qc =>
    if c == 0x22 || c == 0x27 then
      if !inQ then findEq rest (i + sz) true c
      else if c == qc then findEq rest (i + sz) false qc
      else findEq rest (i + sz) inQ qc
    else if c == 0x3D && !inQ then some i
    else findEq rest (i + sz) inQ qc

/-- Errors produced by `parseLine`. -/
inductive ParseErr where
  | missingDelimiter : ParseErr
  | emptyKey : ParseErr
  | invalidKey : GoStr → ParseErr
deriving DecidableEq, Repr

/-- The bytes of the literal `"export"`. -/
def exportTok : GoStr := [0x65, 0x78, 0x70, 0x6F, 0x72, 0x74]

/-- Model of Go's `strings.TrimPrefix`. -/
def goTrimPre (pre s : GoStr) : GoStr :=
  if pre.isPrefixOf s then s.drop pre.length else s

/-- The part of `parseLine` after the `export` strip: find the first
unquoted `=`, split, trim, validate the key, unquote the value. -/
def parseLineBody (l : GoStr) : Except ParseErr (GoStr × GoStr) :=
  match findEq (decode l) 0 false 0 with
  | none => .error .missingDelimiter
  | some i =>
    let key := trimSpace (l.take i)
    let value := trimSpace (l.drop (i + 1))
    if key = [] then .error .emptyKey
    else if !isValidEnvKey key then .error (.invalidKey key)
    else .ok (key, unquoteValue value)

/-- `parseLine` from quickenv.go. -/
def parseLine (line : GoStr) : Except ParseErr (GoStr × GoStr) :=
  parseLineBody (goTrimPre exportTok line)

/-!  The loader (`loadFromReader`, `Load`) and its surroundings.  The process
environment is modelled as a partial map from keys to values; `os.Getenv`
returns the empty string for an unset variable.  The reader is modelled as
the list of lines the scanner yields, plus a flag telling whether the scan
then ends in a read error (`scanner.Err()`).  `os.Setenv` failures are
modelled by a predicate `setFails` on the key/value being set; `applied`
records the environment mutations actually performed (each one is counted
in `loaded`), and `log` records the debug lines written to stderr. -/

/-- The process environment: `none` means the variable is unset. -/
abbrev Env := GoStr → Option GoStr

/-- Model of Go's `os.Getenv`: the empty string when unset. -/
def goGetenv (env : Env) (key : GoStr) : GoStr := (env key).getD []

/-- Model of a successful `os.Setenv`. -/
def goSetenv (env : Env) (key value : GoStr) : Env :=
  fun k => if k = key then some value else env k

/-- `LoadOptions` from quickenv.go. -/
structure LoadOptions where
  pathname : GoStr
  overwrite : Bool
  debug : Bool
  maxLevels : Int

/-- The bytes of `".env"`. -/
def dotEnv : GoStr := [0x2E, 0x65, 0x6E, 0x76]

/-- `DefaultLoadOptions` from quickenv.go. -/
def defaultLoadOptions : LoadOptions :=
  { pathname := dotEnv, overwrite := false, debug := false, maxLevels := 3 }

/-- `parseOptions` from quickenv.go: defaulting of missing or invalid
fields on a copy of the caller's options (`none` models an absent or nil
argument). -/
def parseOptions (opts : Option LoadOptions) : LoadOptions :=
  match opts with
  | some o =>
    { o with
      pathname := if o.pathname = [] then dotEnv else o.pathname,
      maxLevels := if o.maxLevels ≤ 0 then 3 else o.maxLevels }
  | none => defaultLoadOptions

/-- The debug mask computed in `loadFromReader` (lines 173-176 of
quickenv.go): `mask := "***"; if len(value) < 5 { mask = Repeat("*", len) }`. -/
def maskValue (value : GoStr) : GoStr :=
  if value.length < 5 then List.replicate value.length 0x2A else [0x2A, 0x2A, 0x2A]

/-- A debug line written to stderr by `loadFromReader`. -/
inductive LogEntry where
  | skipInvalid : GoStr → LogEntry
  | setVar : GoStr → GoStr → LogEntry
deriving DecidableEq, Repr

/-- Errors the loading pipeline can return. -/
inductive LoadErr where
  | notFound : GoStr → LoadErr
  | readErr : LoadErr
  | setErr : GoStr → LoadErr
deriving DecidableEq, Repr

/-- The observable result of a load: the returned count, the returned error
(if any), the final environment, the debug log, and the list of environment
mutations performed (in order). -/
structure LoadOutcome where
  loaded : Nat
  err : Option LoadErr
  env : Env
  log : List LogEntry
  applied : List (GoStr × GoStr)

/-- The line loop of `loadFromReader`: trim each line, skip empty lines and
comments, parse, and set the variable when `Overwrite` is on or the variable
is unset/empty, counting exactly the performed sets; a `Setenv` failure
aborts with the count accumulated so far. -/
def loadLines (opts : LoadOptions) (setFails : GoStr → GoStr → Bool) :
    List GoStr → Env → Nat → LoadOutcome
  | [], env, loaded => ⟨loaded, none, env, [], []⟩
  | rawLine :: rest, env, loaded =>
    let line := trimSpace rawLine
    if line = [] ∨ [0x23].isPrefixOf line then loadLines opts setFails rest env loaded
    else
      match parseLine line with
      | .error _ =>
        let r := loadLines opts setFails rest env loaded
        if opts.debug then { r with log := .skipInvalid line :: r.log } else r
      | .ok (key, value) =>
        if opts.overwrite || goGetenv env key == [] then
          if setFails key value then ⟨loaded, some (.setErr key), env, [], []⟩
          else
            let r := loadLines opts setFails rest (goSetenv env key value) (loaded + 1)
            let r' := { r with applied := (key, value) :: r.applied }
            if opts.debug then { r' with log := .setVar key (maskValue value) :: r'.log }
            else r'
        else loadLines opts setFails rest env loaded

/-- `loadFromReader` from quickenv.go: run the line loop, then surface
`scanner.Err()`; an early return from a failed `Setenv` skips that check. -/
def loadFromReader (lines : List GoStr) (readFails : Bool) (opts : LoadOptions)
    (setFails : GoStr → GoStr → Bool) (env : Env) : LoadOutcome :=
  let r := loadLines opts setFails lines env 0
  match r.err with
  | some _ => r
  | none => if readFails then { r with err := some .readErr } else r

/-!  The file locator.  Directories are modelled as lists of path components
(from the root; the root is `[]`, and `filepath.Dir` drops the last
component, with `Dir(root) = root`).  `statDir d` abstracts a successful
`os.Stat` of the target filename joined to directory `d`; step 1 of the
search stats the (relative) pathname itself, i.e. the working directory. -/

/-- The climb loop of `findEnvFile`: up to `n` times, move to the parent and
stat the target there, stopping early when the parent equals the directory
(the filesystem root). -/
def climb (statDir : List GoStr → Bool) : Nat → List GoStr → Option (List GoStr)
  | 0, _ => none
  | n + 1, dir =>
    let parent := dir.dropLast
    if parent = dir then none
    else if statDir parent then some parent
    else climb statDir n parent

/-- `findEnvFile` from quickenv.go, returning the directory in which the
target was found (the source returns the joined path string), or the
originally requested pathname as the not-found error payload.  A negative
`maxLevels` makes `for range maxLevels` run zero times. -/
def findEnvFile (pathname : GoStr) (maxLevels : Int) (cwd : List GoStr)
    (statDir : List GoStr → Bool) : Except GoStr (List GoStr) :=
  if statDir cwd then .ok cwd
  else
    match climb statDir maxLevels.toNat cwd with
    | some d => .ok d
    | none => .error pathname

/-- `Load` from quickenv.go: default the options, locate the file, then read
it.  `contents` gives, per directory, the lines of the file found there and
whether streaming it ends in a read error; a successful `os.Stat` is modelled
as implying a successful `os.Open`. -/
def Load (optsIn : Option LoadOptions) (cwd : List GoStr)
    (statDir : List GoStr → Bool) (contents : List GoStr → List GoStr × Bool)
    (setFails : GoStr → GoStr → Bool) (env : Env) : LoadOutcome :=
  let options := parseOptions optsIn
  match findEnvFile options.pathname options.maxLevels cwd statDir with
  | .error p => ⟨0, some (.notFound p), env, [], []⟩
  | .ok d => loadFromReader (contents d).1 (contents d).2 options setFails env

/-- `GetEnv` from quickenv.go: the variable's value, or `defaultValue` when
the variable is unset or empty. -/
def GetEnv (env : Env) (key defaultValue : GoStr) : GoStr :=
  if goGetenv env key ≠ [] then goGetenv env key else defaultValue

/-- `GetEnvOrPanic` from quickenv.go; `none` models the panic. -/
def GetEnvOrPanic (env : Env) (key : GoStr) : Option GoStr :=
  if goGetenv env key ≠ [] then some (goGetenv env key) else none

/-!  Spec-side reference definitions (used to compare the code against the
specification's wording), and concrete inputs from the spec's examples. -/

/-- Modelled from the spec, for comparison with `isValidEnvKey`: the key rule
read over the string's characters (decoded code points): non-empty, first
character a letter or underscore, subsequent characters letters, digits or
underscores. -/
def specValidKey (s : GoStr) : Bool :=
  match runeList s with
  | [] => false
  | c :: cs =>
    (goIsLetter c || c == 0x5F) &&
      cs.all fun r => goIsLetter r || goIsDigit r || r == 0x5F

/-- One step of the quote-state machine of `parseLine`'s scan: entering on
any `"` or `'` when not inside a quote, leaving when the same quote
character recurs. -/
def qstep (st : Bool × Nat) (r : Nat) : Bool × Nat :=
  if r = 0x22 ∨ r = 0x27 then
    if st.1 = false then (true, r)
    else if r = st.2 then (false, st.2)
    else st
  else st

/-- The byte index at which the `m`-th character of `s` starts. -/
def bytePos (s : GoStr) (m : Nat) : Nat := (((decode s).take m).map (·.2)).sum

/-- Whether the scan is inside a quoted span when it reaches the `m`-th
character of `s`. -/
def inQuoteBefore (s : GoStr) (m : Nat) : Bool :=
  (((runeList s).take m).foldl qstep (false, 0)).1

/-- The `m`-th character of `s` is an `=` outside every quoted span. -/
def eqAt (s : GoStr) (m : Nat) : Prop :=
  (runeList s).get? m = some 0x3D ∧ inQuoteBefore s m = false

instance (s : GoStr) (m : Nat) : Decidable (eqAt s m) := by
  unfold eqAt; infer_instance

/-- Modelled from the spec, for comparison with `findEq`: the scan as the
spec words it, where a quoted span is entered only on an *unescaped* quote —
a quote not preceded by a backslash (`prev` is the previous character). -/
def specFindEqEscAux : List (Nat × Nat) → Nat → Bool → Nat → Option Nat → Option Nat
  | [], _, _, _, _ => none
  | (r, sz) :: rest, i, inQ, qc, prev =>
    if (r = 0x22 ∨ r = 0x27) ∧ inQ = false ∧ prev ≠ some 0x5C then
      specFindEqEscAux rest (i + sz) true r (some r)
    else if (r = 0x22 ∨ r = 0x27) ∧ inQ = true ∧ r = qc then
      specFindEqEscAux rest (i + sz) false qc (some r)
    else if r = 0x3D ∧ inQ = false then some i
    else specFindEqEscAux rest (i + sz) inQ qc (some r)

/-- Modelled from the spec: index of the first `=` outside a quoted span,
with escape-aware quote tracking. -/
def specFindEqEsc (s : GoStr) : Option Nat := specFindEqEscAux (decode s) 0 false 0 none

/-- `ℓ`-fold parent directory (`atLevel 0` is the directory itself). -/
def atLevel : Nat → List GoStr → List GoStr
  | 0, d => d
  | n + 1, d => atLevel n d.dropLast

/-- Removing a variable from the environment entirely. -/
def unsetEnv (env : Env) (key : GoStr) : Env :=
  fun k => if k = key then none else env k

/-- `"CONN_STR=\"user=pass@host:5432\""`. -/
def connStrLine : GoStr := [0x43, 0x4F, 0x4E, 0x4E, 0x5F, 0x53, 0x54, 0x52, 0x3D, 0x22, 0x75, 0x73, 0x65, 0x72, 0x3D, 0x70, 0x61, 0x73, 0x73, 0x40, 0x68, 0x6F, 0x73, 0x74, 0x3A, 0x35, 0x34, 0x33, 0x32, 0x22]

/-- `"CONN_STR"`. -/
def connStrKey : GoStr := [0x43, 0x4F, 0x4E, 0x4E, 0x5F, 0x53, 0x54, 0x52]

/-- `"user=pass@host:5432"`. -/
def connStrVal : GoStr := [0x75, 0x73, 0x65, 0x72, 0x3D, 0x70, 0x61, 0x73, 0x73, 0x40, 0x68, 0x6F, 0x73, 0x74, 0x3A, 0x35, 0x34, 0x33, 0x32]

/-- `"NAME==John=Doe"`. -/
def nameEqLine : GoStr := [0x4E, 0x41, 0x4D, 0x45, 0x3D, 0x3D, 0x4A, 0x6F, 0x68, 0x6E, 0x3D, 0x44, 0x6F, 0x65]

/-- `"NAME"`. -/
def nameKey : GoStr := [0x4E, 0x41, 0x4D, 0x45]

/-- `"=John=Doe"`. -/
def johnDoeVal : GoStr := [0x3D, 0x4A, 0x6F, 0x68, 0x6E, 0x3D, 0x44, 0x6F, 0x65]

/-- `"export exported_var=x"`. -/
def expVarLine : GoStr := [0x65, 0x78, 0x70, 0x6F, 0x72, 0x74, 0x20, 0x65, 0x78, 0x70, 0x6F, 0x72, 0x74, 0x65, 0x64, 0x5F, 0x76, 0x61, 0x72, 0x3D, 0x78]

/-- `"exported_var=x"`. -/
def plainVarLine : GoStr := [0x65, 0x78, 0x70, 0x6F, 0x72, 0x74, 0x65, 0x64, 0x5F, 0x76, 0x61, 0x72, 0x3D, 0x78]

/-- `"exported_var"`. -/
def exportedVarKey : GoStr := [0x65, 0x78, 0x70, 0x6F, 0x72, 0x74, 0x65, 0x64, 0x5F, 0x76, 0x61, 0x72]

/-- `"ed_var"`. -/
def edVarKey : GoStr := [0x65, 0x64, 0x5F, 0x76, 0x61, 0x72]

/-- `"DB_PORT=8080"`. -/
def dbPortLine : GoStr := [0x44, 0x42, 0x5F, 0x50, 0x4F, 0x52, 0x54, 0x3D, 0x38, 0x30, 0x38, 0x30]

/-- `"# comment"`. -/
def commentLine : GoStr := [0x23, 0x20, 0x63, 0x6F, 0x6D, 0x6D, 0x65, 0x6E, 0x74]

/-- `"export NAME=\"A\""`. -/
def exportNameLine : GoStr := [0x65, 0x78, 0x70, 0x6F, 0x72, 0x74, 0x20, 0x4E, 0x41, 0x4D, 0x45, 0x3D, 0x22, 0x41, 0x22]

/-- `"DB_PORT"`. -/
def dbPortKey : GoStr := [0x44, 0x42, 0x5F, 0x50, 0x4F, 0x52, 0x54]

/-- The line `A\"=b` (backslash before the double quote). -/
def escLine : GoStr := [0x41, 0x5C, 0x22, 0x3D, 0x62]

/-- An environment where only `DB_PORT` is set (to `"1234"`). -/
def envDB : Env :=
  fun k => if k = dbPortKey then some [0x31, 0x32, 0x33, 0x34] else none

/-- Options with everything off (Overwrite=false, Debug=false). -/
def optsPlain : LoadOptions :=
  { pathname := dotEnv, overwrite := false, debug := false, maxLevels := 3 }

/-- A `Setenv` that never fails. -/
def noFail : GoStr → GoStr → Bool := fun _ _ => false

deriving instance DecidableEq for Except

/-- Options with Debug on (used to exercise the debug log). -/
def optsDebug : LoadOptions :=
  { pathname := dotEnv, overwrite := false, debug := true, maxLevels := 3 }

/-!  Helper lemmas. -/

/-- Decoding a byte below 0x80 yields that byte as a one-byte code point. -/
theorem decode_cons_ascii (b : Nat) (rest : GoStr) (h : b < 0x80) :
    decode (b :: rest) = (b, 1) :: decode rest := by
  rcases rest with _ | ⟨b1, _ | ⟨b2, _ | ⟨b3, rest4⟩⟩⟩ <;>
    simp only [decode, if_pos h]

/-- Decoding a leading continuation byte yields U+FFFD with size one. -/
theorem decode_cons_cont (b : Nat) (rest : GoStr) (h1 : 0x80 ≤ b) (h2 : b ≤ 0xBF) :
    decode (b :: rest) = (0xFFFD, 1) :: decode rest := by
  rcases rest with _ | ⟨b1, _ | ⟨b2, _ | ⟨b3, rest4⟩⟩⟩ <;>
    simp only [decode] <;>
    rw [if_neg (by omega : ¬ b < 0x80)] <;>
    first
      | rfl
      | rw [if_pos (by omega : b < 0xC2)]

/-- Decoding a leading space byte. -/
theorem decode_cons_space (s : GoStr) : decode (0x20 :: s) = (0x20, 1) :: decode s :=
  decode_cons_ascii 0x20 s (by omega)

/-- `all` over mapped first components. -/
theorem all_map_fst (l : List (Nat × Nat)) (f : Nat → Bool) :
    (l.map (·.1)).all f = l.all fun p => f p.1 := by
  induction l with
  | nil => rfl
  | cons a t ih => simp only [List.map_cons, List.all_cons, ih]

/-- One-step equation for `isValidEnvKey` on a non-empty key. -/
theorem isValidEnvKey_cons (b0 : Nat) (rest : GoStr) :
    isValidEnvKey (b0 :: rest) =
      if !goIsLetter b0 && !(b0 == 0x5F) then false
      else (decode rest).all fun p => goIsLetter p.1 || goIsDigit p.1 || p.1 == 0x5F := rfl

/-- Every byte of a computed mask is an asterisk. -/
theorem maskValue_all_star (v : GoStr) : ∀ b ∈ maskValue v, b = 0x2A := by
  intro b hb
  unfold maskValue at hb
  split at hb
  · exact List.eq_of_mem_replicate hb
  · simpa using hb

/-- Every `setVar` entry in the loader's debug log carries a computed mask,
never a raw value. -/
theorem loadLines_setVar_mask (opts : LoadOptions) (sf : GoStr → GoStr → Bool) :
    ∀ (ls : List GoStr) (env : Env) (n : Nat) (key m : GoStr),
      LogEntry.setVar key m ∈ (loadLines opts sf ls env n).log →
      ∃ value, m = maskValue value := by
  intro ls
  induction ls with
  | nil => intro env n key m h; simp [loadLines] at h
  | cons l rest ih =>
    intro env n key m h
    rw [loadLines] at h
    split at h
    · exact ih _ _ _ _ h
    · split at h
      · split at h
        · rcases List.mem_cons.mp h with h | h
          · exact LogEntry.noConfusion h
          · exact ih _ _ _ _ h
        · exact ih _ _ _ _ h
      · split at h
        · split at h
          · simp [loadLines] at h
          · split at h
            · rcases List.mem_cons.mp h with h | h
              · injection h with h1 h2
                exact ⟨_, h2⟩
              · exact ih _ _ _ _ h
            · simp at h
              exact ih _ _ _ _ h
        · exact ih _ _ _ _ h

/-!  Claim C1: the key validator. -/

/-- C1, counterexample: the single Cyrillic letter `к` (bytes D0 BA) is a
Unicode letter, so the claimed character-level rule accepts it, but
`isValidEnvKey` rejects it (the validator reads the first byte only and the
orphaned continuation byte decodes to U+FFFD). -/
theorem claim1_counterexample :
    specValidKey [0xD0, 0xBA] = true ∧ isValidEnvKey [0xD0, 0xBA] = false := by
  decide

/-- C1, amended: the character-level rule (non-empty, first character a
letter or underscore, rest letters/digits/underscores) matches
`isValidEnvKey` exactly for keys whose first byte is ASCII; a key whose
first character occupies more than one byte (its second byte is a UTF-8
continuation byte) is always rejected; the empty key is rejected by both. -/
theorem claim1_key_validator :
    (∀ b rest, b < 0x80 → isValidEnvKey (b :: rest) = specValidKey (b :: rest)) ∧
    (∀ b0 b1 rest, 0x80 ≤ b1 → b1 ≤ 0xBF → isValidEnvKey (b0 :: b1 :: rest) = false) ∧
    isValidEnvKey [] = false ∧ specValidKey [] = false := by
  refine ⟨?_, ?_, rfl, rfl⟩
  · intro b rest h
    have h2 : specValidKey (b :: rest) =
        ((goIsLetter b || b == 0x5F) &&
          (decode rest).all fun p => goIsLetter p.1 || goIsDigit p.1 || p.1 == 0x5F) := by
      unfold specValidKey runeList
      rw [decode_cons_ascii b rest h]
      simp only [List.map_cons, all_map_fst]
    rw [isValidEnvKey_cons, h2]
    cases hL : goIsLetter b <;> cases hU : (b == 0x5F) <;> simp
  · intro b0 b1 rest h1 h2
    rw [isValidEnvKey_cons, decode_cons_cont b1 rest h1 h2]
    have h3 : goIsLetter 0xFFFD = false := by decide
    have h4 : goIsDigit 0xFFFD = false := by decide
    simp [h3, h4]

/-- C1, witness: the amended statement applied to the ASCII key `PORT` and
to the two-byte-lead key `A` followed by a continuation byte. -/
theorem claim1_witness :
    isValidEnvKey [0x50, 0x4F, 0x52, 0x54] = specValidKey [0x50, 0x4F, 0x52, 0x54] ∧
    isValidEnvKey [0x41, 0x80] = false :=
  ⟨claim1_key_validator.1 0x50 [0x4F, 0x52, 0x54] (by decide),
   claim1_key_validator.2.1 0x41 0x80 [] (by decide) (by decide)⟩

/-!  Claim C2: the debug mask. -/

/-- C2, counterexample: a value of length 4 (`pass`) is masked as four
asterisks, not as the fixed three-asterisk mask the claim requires for
every value of length 4 or more. -/
theorem claim2_counterexample :
    maskValue [0x70, 0x61, 0x73, 0x73] = [0x2A, 0x2A, 0x2A, 0x2A] ∧
    maskValue [0x70, 0x61, 0x73, 0x73] ≠ [0x2A, 0x2A, 0x2A] := by
  decide

/-- C2, amended: the logged mask is a full mask of asterisks matching the
value's length when the length is strictly less than 5, and the fixed
three-asterisk mask for length 5 or more; every `setVar` entry the loader
logs carries such a mask, which consists of asterisks only — never the raw
value. -/
theorem claim2_debug_mask :
    (∀ value : GoStr, value.length < 5 →
        maskValue value = List.replicate value.length 0x2A) ∧
    (∀ value : GoStr, 5 ≤ value.length → maskValue value = [0x2A, 0x2A, 0x2A]) ∧
    (∀ opts sf ls env n key m, LogEntry.setVar key m ∈ (loadLines opts sf ls env n).log →
        ∃ value, m = maskValue value ∧ ∀ b ∈ m, b = 0x2A) := by
  refine ⟨?_, ?_, ?_⟩
  · intro v h
    unfold maskValue
    rw [if_pos h]
  · intro v h
    unfold maskValue
    rw [if_neg (by omega)]
  · intro opts sf ls env n key m h
    obtain ⟨value, hv⟩ := loadLines_setVar_mask opts sf ls env n key m h
    exact ⟨value, hv, hv ▸ maskValue_all_star value⟩

/-- C2, witness: the amended statement applied to a length-1 value, a
length-5 value, and a concrete debug-mode load of `K=pass`. -/
theorem claim2_witness :
    maskValue [0x61] = List.replicate ([0x61] : GoStr).length 0x2A ∧
    maskValue [0x61, 0x62, 0x63, 0x64, 0x65] = [0x2A, 0x2A, 0x2A] ∧
    ∃ value, ([0x2A, 0x2A, 0x2A, 0x2A] : GoStr) = maskValue value ∧
      ∀ b ∈ ([0x2A, 0x2A, 0x2A, 0x2A] : GoStr), b = 0x2A :=
  ⟨claim2_debug_mask.1 [0x61] (by decide),
   claim2_debug_mask.2.1 [0x61, 0x62, 0x63, 0x64, 0x65] (by decide),
   claim2_debug_mask.2.2 optsDebug noFail [[0x4B, 0x3D, 0x70, 0x61, 0x73, 0x73]]
     (fun _ => none) 0 [0x4B] [0x2A, 0x2A, 0x2A, 0x2A] (by decide)⟩

/-!  Claim C7: the quote stripper. -/

/-- C7: `unquoteValue` removes exactly the two end bytes when the string
has length at least 2 and both ends are the same quote character (one layer,
inner content verbatim, no escape decoding), and returns the input unchanged
when the string is shorter than 2 or its ends are not a matching quote
pair. -/
theorem claim7_quote_stripper :
    (∀ v : GoStr, 2 ≤ v.length →
        ((v.headD 0 = 0x22 ∧ v.getLastD 0 = 0x22) ∨ (v.headD 0 = 0x27 ∧ v.getLastD 0 = 0x27)) →
        unquoteValue v = (v.drop 1).dropLast) ∧
    (∀ (q : Nat) (w : GoStr), (q = 0x22 ∨ q = 0x27) →
        unquoteValue (q :: (w ++ [q])) = w) ∧
    (∀ v : GoStr, v.length ≤ 1 → unquoteValue v = v) ∧
    (∀ v : GoStr,
        ¬((v.headD 0 = 0x22 ∧ v.getLastD 0 = 0x22) ∨ (v.headD 0 = 0x27 ∧ v.getLastD 0 = 0x27)) →
        unquoteValue v = v) := by
  refine ⟨?_, ?_, ?_, ?_⟩
  · intro v hl hq
    unfold unquoteValue
    rw [if_pos hl, if_pos hq]
  · intro q w hq
    have hlen : 2 ≤ (q :: (w ++ [q])).length := by simp
    have hl : (q :: (w ++ [q])).getLastD 0 = q := by
      rw [show q :: (w ++ [q]) = (q :: w) ++ [q] from by simp]
      exact List.getLastD_concat _ _ _
    unfold unquoteValue
    rw [if_pos hlen]
    simp only [List.headD_cons, hl]
    rcases hq with h | h <;> subst h <;> simp
  · intro v h
    unfold unquoteValue
    rw [if_neg (by omega)]
  · intro v h
    unfold unquoteValue
    by_cases hl : 2 ≤ v.length
    · rw [if_pos hl, if_neg h]
    · rw [if_neg hl]

/-- C7, witness: stripping `"hi"` and leaving `"mixed'` and `x` unchanged. -/
theorem claim7_witness :
    unquoteValue [0x22, 0x68, 0x69, 0x22] = [0x68, 0x69] ∧
    unquoteValue [0x22, 0x6D, 0x27] = [0x22, 0x6D, 0x27] ∧
    unquoteValue [0x78] = [0x78] :=
  ⟨claim7_quote_stripper.2.1 0x22 [0x68, 0x69] (Or.inl rfl),
   claim7_quote_stripper.2.2.2 [0x22, 0x6D, 0x27] (by decide),
   claim7_quote_stripper.2.2.1 [0x78] (by decide)⟩

/-!  Claim C10: the accessors conflate empty with unset. -/

/-- C10: through `GetEnv` and `GetEnvOrPanic`, a variable set to the empty
string is indistinguishable from an unset one: both accessors give the same
results on an environment where `key` is set to `""` and on one where `key`
is removed, and at `key` itself `GetEnv` falls back to the default and
`GetEnvOrPanic` panics. -/
theorem claim10_empty_equals_unset :
    ∀ (env : Env) (key k' defaultValue : GoStr),
      GetEnv (goSetenv env key []) k' defaultValue
        = GetEnv (unsetEnv env key) k' defaultValue ∧
      GetEnvOrPanic (goSetenv env key []) k' = GetEnvOrPanic (unsetEnv env key) k' ∧
      GetEnv (goSetenv env key []) key defaultValue = defaultValue ∧
      GetEnvOrPanic (goSetenv env key []) key = none := by
  intro env key k' d
  by_cases h : k' = key <;>
    simp [GetEnv, GetEnvOrPanic, goGetenv, goSetenv, unsetEnv, h]

/-!  Claim C3: the key/value split. -/

/-- One-step equation for the quote-tracking scan: the head rune either is
the unquoted `=` looked for, or the scan continues with the stepped quote
state. -/
theorem findEq_cons (r sz : Nat) (ds : List (Nat × Nat)) (i : Nat) (q : Bool) (c : Nat) :
    findEq ((r, sz) :: ds) i q c =
      if r = 0x3D ∧ q = false then some i
      else findEq ds (i + sz) (qstep (q, c) r).1 (qstep (q, c) r).2 := by
  simp only [findEq, qstep]
  by_cases h22 : r = 0x22 <;> by_cases h27 : r = 0x27 <;> by_cases h3D : r = 0x3D <;>
    cases q <;> by_cases hc : r = c <;>
    simp_all

/-- The scan returns the byte index of the least position holding an `=`
outside quotes (with respect to the given initial state). -/
theorem findEq_least (ds : List (Nat × Nat)) :
    ∀ (st : Bool × Nat) (i m : Nat),
      (ds.map (·.1)).get? m = some 0x3D →
      ((((ds.map (·.1)).take m)).foldl qstep st).1 = false →
      (∀ j, j < m → ¬((ds.map (·.1)).get? j = some 0x3D ∧
          ((((ds.map (·.1)).take j)).foldl qstep st).1 = false)) →
      findEq ds i st.1 st.2 = some (i + ((ds.take m).map (·.2)).sum) := by
  induction ds with
  | nil => intro st i m h1 _ _; simp at h1
  | cons p ds ih =>
    obtain ⟨r, sz⟩ := p
    intro st i m h1 h2 hmin
    rw [findEq_cons]
    rcases m with _ | m
    · simp only [List.map_cons, List.get?_cons_zero, Option.some.injEq] at h1
      simp only [List.take_zero, List.foldl_nil] at h2
      rw [if_pos ⟨h1, h2⟩]
      simp
    · have h0 : ¬(r = 0x3D ∧ st.1 = false) := by
        have h := hmin 0 (Nat.succ_pos m)
        simpa using h
      rw [if_neg h0]
      have hrec := ih (qstep st r) (i + sz) m ?_ ?_ ?_
      · rw [hrec]
        simp only [List.take_succ_cons, List.map_cons, List.sum_cons]
        congr 1
        omega
      · simpa using h1
      · simpa using h2
      · intro j hj
        have h := hmin (j + 1) (Nat.succ_lt_succ hj)
        simpa using h

/-- When no position holds an `=` outside quotes, the scan fails. -/
theorem findEq_exhausted (ds : List (Nat × Nat)) :
    ∀ (st : Bool × Nat) (i : Nat),
      (∀ m, ¬((ds.map (·.1)).get? m = some 0x3D ∧
          ((((ds.map (·.1)).take m)).foldl qstep st).1 = false)) →
      findEq ds i st.1 st.2 = none := by
  induction ds with
  | nil => intro st i _; rfl
  | cons p ds ih =>
    obtain ⟨r, sz⟩ := p
    intro st i hall
    rw [findEq_cons]
    have h0 : ¬(r = 0x3D ∧ st.1 = false) := by
      have h := hall 0
      simpa using h
    rw [if_neg h0]
    apply ih (qstep st r) (i + sz)
    intro m
    have h := hall (m + 1)
    simpa using h

/-- C3, counterexample: on the line `A\"=b`, the claim's escape-aware rule
finds an `=` outside every quoted span at byte index 3 (the quote is
preceded by a backslash, so per the claim it does not open a span), yet
`parseLine` reports the missing-delimiter error: the code's scanner has no
escape handling, treats the quote as opening a span, and never sees an
unquoted `=`. -/
theorem claim3_counterexample :
    specFindEqEsc escLine = some 3 ∧
    findEq (decode escLine) 0 false 0 = none ∧
    parseLine escLine = .error .missingDelimiter := by
  decide

/-- C3, amended: the split occurs at the byte index of the first `=` not
inside a quoted span, where a span is entered on **any** `"` or `'` not
already inside a quote (the scanner performs no escape handling) and exited
when the same quote character recurs; if no such `=` exists the parse fails
with the missing-delimiter error; the value retains any further `=`
characters verbatim, as on the spec's two examples. -/
theorem claim3_first_unquoted_eq :
    (∀ line, parseLine line = parseLineBody (goTrimPre exportTok line)) ∧
    (∀ s m, eqAt s m → (∀ j, j < m → ¬eqAt s j) →
        findEq (decode s) 0 false 0 = some (bytePos s m)) ∧
    (∀ s, (∀ m, ¬eqAt s m) → parseLineBody s = .error .missingDelimiter) ∧
    (∀ s j, findEq (decode s) 0 false 0 = some j →
        parseLineBody s =
          (if trimSpace (s.take j) = [] then .error .emptyKey
           else if !isValidEnvKey (trimSpace (s.take j)) then
             .error (.invalidKey (trimSpace (s.take j)))
           else .ok (trimSpace (s.take j), unquoteValue (trimSpace (s.drop (j + 1)))))) ∧
    parseLine connStrLine = .ok (connStrKey, connStrVal) ∧
    parseLine nameEqLine = .ok (nameKey, johnDoeVal) := by
  refine ⟨fun line => rfl, ?_, ?_, ?_, by decide, by decide⟩
  · intro s m h hmin
    unfold eqAt inQuoteBefore runeList at h hmin
    obtain ⟨h1, h2⟩ := h
    have := findEq_least (decode s) (false, 0) 0 m h1 h2 ?_
    · rw [this]
      unfold bytePos
      simp
    · intro j hj
      exact hmin j hj
  · intro s hall
    unfold eqAt inQuoteBefore runeList at hall
    have hnone : findEq (decode s) 0 false 0 = none :=
      findEq_exhausted (decode s) (false, 0) 0 hall
    unfold parseLineBody
    rw [hnone]
  · intro s j h
    unfold parseLineBody
    rw [h]

/-- C3, witness: the amended statement applied to `A=B` at position 1, and
the no-delimiter case applied to the line `A`. -/
theorem claim3_witness :
    findEq (decode [0x41, 0x3D, 0x42]) 0 false 0 = some (bytePos [0x41, 0x3D, 0x42] 1) ∧
    parseLineBody [0x41] = .error .missingDelimiter :=
  ⟨claim3_first_unquoted_eq.2.1 [0x41, 0x3D, 0x42] 1 (by decide) (by decide),
   claim3_first_unquoted_eq.2.2.1 [0x41] (by
     intro m h
     obtain ⟨h1, h2⟩ := h
     have hm : m < 1 := by
       by_contra hge
       have hl : (runeList [0x41]).length = 1 := by decide
       rw [List.get?_eq_none.mpr (by omega)] at h1
       exact Option.noConfusion h1
     interval_cases m
     revert h1 h2
     decide)⟩

/-!  Claim C8: the `export` prefix. -/

/-- Shifting the base byte index of the scan shifts its result. -/
theorem findEq_shift (ds : List (Nat × Nat)) :
    ∀ (k i : Nat) (q : Bool) (c : Nat),
      findEq ds (k + i) q c = (findEq ds i q c).map (k + ·) := by
  induction ds with
  | nil => intro k i q c; rfl
  | cons p ds ih =>
    obtain ⟨r, sz⟩ := p
    intro k i q c
    rw [findEq_cons, findEq_cons]
    split
    · rfl
    · rw [Nat.add_assoc]
      exact ih k (i + sz) _ _

/-- Trimming removes a leading space byte. -/
theorem trimLeftSpace_space (x : GoStr) : trimLeftSpace (0x20 :: x) = trimLeftSpace x := rfl

/-- `TrimSpace` ignores a leading space byte. -/
theorem trimSpace_space (x : GoStr) : trimSpace (0x20 :: x) = trimSpace x := by
  unfold trimSpace
  rw [trimLeftSpace_space]

/-- `parseLineBody` when the scan fails. -/
theorem parseLineBody_eq_none (s : GoStr) (h : findEq (decode s) 0 false 0 = none) :
    parseLineBody s = .error .missingDelimiter := by
  unfold parseLineBody
  rw [h]

/-- `parseLineBody` when the scan finds the delimiter at byte index `j`. -/
theorem parseLineBody_eq_some (s : GoStr) (j : Nat) (h : findEq (decode s) 0 false 0 = some j) :
    parseLineBody s =
      (if trimSpace (s.take j) = [] then .error .emptyKey
       else if !isValidEnvKey (trimSpace (s.take j)) then
         .error (.invalidKey (trimSpace (s.take j)))
       else .ok (trimSpace (s.take j), unquoteValue (trimSpace (s.drop (j + 1))))) := by
  unfold parseLineBody
  rw [h]

/-- The scan on a string with one leading space: same result, shifted. -/
theorem findEq_space (s : GoStr) :
    findEq (decode (0x20 :: s)) 0 false 0 = (findEq (decode s) 0 false 0).map (· + 1) := by
  rw [decode_cons_space, findEq_cons, if_neg (by simp)]
  have hq : qstep (false, 0) 0x20 = (false, 0) := by decide
  rw [hq]
  have hs := findEq_shift (decode s) 1 0 false 0
  simp only [Nat.add_zero] at hs ⊢
  rw [show (0 + 1 : Nat) = 1 from rfl, hs]
  cases findEq (decode s) 0 false 0 <;> simp [Nat.add_comm]

/-- A leading space does not change the result of the post-strip parse. -/
theorem parseLineBody_space (s : GoStr) : parseLineBody (0x20 :: s) = parseLineBody s := by
  cases h : findEq (decode s) 0 false 0 with
  | none =>
    have h1 : findEq (decode (0x20 :: s)) 0 false 0 = none := by
      rw [findEq_space, h]; rfl
    rw [parseLineBody_eq_none _ h1, parseLineBody_eq_none _ h]
  | some j =>
    have h1 : findEq (decode (0x20 :: s)) 0 false 0 = some (j + 1) := by
      rw [findEq_space, h]; rfl
    rw [parseLineBody_eq_some _ _ h1, parseLineBody_eq_some _ _ h]
    simp only [List.take_succ_cons, List.drop_succ_cons, trimSpace_space]

/-- `TrimPrefix` removes a literal leading `export`. -/
theorem goTrimPre_export_append (rest : GoStr) :
    goTrimPre exportTok (exportTok ++ rest) = rest := by
  unfold goTrimPre
  rw [if_pos (by
    rw [List.isPrefixOf_iff_prefix]
    exact List.prefix_append _ _)]
  exact List.drop_left _ _

/-- `export` is not a prefix of `k ++ "=" ++ v` when it is not a prefix of
`k` (the byte `=` can never match a byte of `export`). -/
theorem not_export_pre_append (k v : GoStr) (h : exportTok.isPrefixOf k = false) :
    exportTok.isPrefixOf (k ++ 0x3D :: v) = false := by
  by_contra hc
  have hp : exportTok <+: (k ++ 0x3D :: v) := by
    rw [← List.isPrefixOf_iff_prefix]
    cases hb : exportTok.isPrefixOf (k ++ 0x3D :: v)
    · exact absurd hb hc
    · rfl
  have htake : exportTok = (k ++ 0x3D :: v).take 6 := by
    have := List.prefix_iff_eq_take.mp hp
    simpa using this
  by_cases hk : 6 ≤ k.length
  · have heq : (k ++ 0x3D :: v).take 6 = k.take 6 := List.take_append_of_le_length hk
    rw [heq] at htake
    have hpre : exportTok <+: k := htake ▸ List.take_prefix 6 k
    rw [← List.isPrefixOf_iff_prefix] at hpre
    rw [hpre] at h
    exact Bool.noConfusion h
  · push_neg at hk
    have h1 : exportTok.get? k.length = ((k ++ 0x3D :: v).take 6).get? k.length := by
      rw [htake]
    have h2 : ((k ++ 0x3D :: v).take 6).get? k.length = (k ++ 0x3D :: v).get? k.length :=
      List.get?_take hk
    have h3 : (k ++ 0x3D :: v).get? k.length = some 0x3D := by
      rw [List.get?_append_right (Nat.le_refl _)]
      simp
    rw [h2, h3] at h1
    have h6 : k.length < 6 := hk
    interval_cases hkl : k.length <;> revert h1 <;> decide

/-- C8, counterexample: for KEY = `exported_var` the claimed equivalence
fails: `export exported_var=x` parses to key `exported_var`, while
`exported_var=x` has its own leading `exported` mangled by the prefix strip
and parses to key `ed_var`. -/
theorem claim8_counterexample :
    parseLine expVarLine = .ok (exportedVarKey, [0x78]) ∧
    parseLine plainVarLine = .ok (edVarKey, [0x78]) ∧
    exportedVarKey ≠ edVarKey := by
  decide

/-- C8, amended: `parseLine` removes a literal leading `export` regardless
of what follows it, and `export KEY=VALUE` parses identically to
`KEY=VALUE` for every KEY that does not itself begin with the 6 characters
`export` (for keys that do, the strip mangles the bare line). -/
theorem claim8_export_equiv :
    (∀ rest, parseLine (exportTok ++ rest) = parseLineBody rest) ∧
    (∀ k v : GoStr, exportTok.isPrefixOf k = false →
        parseLine (exportTok ++ 0x20 :: (k ++ 0x3D :: v)) = parseLine (k ++ 0x3D :: v)) := by
  constructor
  · intro rest
    unfold parseLine
    rw [goTrimPre_export_append]
  · intro k v h
    have h1 : parseLine (exportTok ++ 0x20 :: (k ++ 0x3D :: v))
        = parseLineBody (0x20 :: (k ++ 0x3D :: v)) := by
      unfold parseLine
      rw [goTrimPre_export_append]
    have h2 : goTrimPre exportTok (k ++ 0x3D :: v) = k ++ 0x3D :: v := by
      unfold goTrimPre
      rw [not_export_pre_append k v h]
      simp
    rw [h1, parseLineBody_space]
    unfold parseLine
    rw [h2]

/-- C8, witness: the amended equivalence applied to `export A=B` versus
`A=B`. -/
theorem claim8_witness :
    parseLine (exportTok ++ 0x20 :: ([0x41] ++ 0x3D :: [0x42]))
      = parseLine ([0x41] ++ 0x3D :: [0x42]) :=
  claim8_export_equiv.2 [0x41] [0x42] (by decide)

/-!  The loader: one-step equations and invariants (claims C4, C5, C6). -/

/-- Skipping an empty or comment line. -/
theorem loadLines_skip (opts : LoadOptions) (sf : GoStr → GoStr → Bool) (l : GoStr)
    (rest : List GoStr) (env : Env) (n : Nat)
    (h : trimSpace l = [] ∨ [0x23].isPrefixOf (trimSpace l)) :
    loadLines opts sf (l :: rest) env n = loadLines opts sf rest env n := by
  rw [loadLines]
  rw [if_pos h]

/-- A line that fails to parse is skipped (logged when Debug is on). -/
theorem loadLines_perr (opts : LoadOptions) (sf : GoStr → GoStr → Bool) (l : GoStr)
    (rest : List GoStr) (env : Env) (n : Nat) (e : ParseErr)
    (h : ¬(trimSpace l = [] ∨ [0x23].isPrefixOf (trimSpace l)))
    (hp : parseLine (trimSpace l) = .error e) :
    loadLines opts sf (l :: rest) env n =
      (if opts.debug then
        { loadLines opts sf rest env n with
            log := .skipInvalid (trimSpace l) :: (loadLines opts sf rest env n).log }
       else loadLines opts sf rest env n) := by
  rw [loadLines]
  rw [if_neg h, hp]

/-- A parsed line is applied when Overwrite is on or the variable is
unset/empty, and `Setenv` succeeds: the variable is set and counted. -/
theorem loadLines_set (opts : LoadOptions) (sf : GoStr → GoStr → Bool) (l : GoStr)
    (rest : List GoStr) (env : Env) (n : Nat) (key value : GoStr)
    (h : ¬(trimSpace l = [] ∨ [0x23].isPrefixOf (trimSpace l)))
    (hp : parseLine (trimSpace l) = .ok (key, value))
    (hc : (opts.overwrite || goGetenv env key == []) = true)
    (hsf : sf key value = false) :
    loadLines opts sf (l :: rest) env n =
      (let r := loadLines opts sf rest (goSetenv env key value) (n + 1)
       let r' := { r with applied := (key, value) :: r.applied }
       if opts.debug then { r' with log := .setVar key (maskValue value) :: r'.log }
       else r') := by
  rw [loadLines]
  rw [if_neg h, hp]
  simp only [hc, hsf]
  rfl

/-- A parsed line is not applied when Overwrite is off and the variable is
already non-empty: nothing is set, nothing is counted. -/
theorem loadLines_noset (opts : LoadOptions) (sf : GoStr → GoStr → Bool) (l : GoStr)
    (rest : List GoStr) (env : Env) (n : Nat) (key value : GoStr)
    (h : ¬(trimSpace l = [] ∨ [0x23].isPrefixOf (trimSpace l)))
    (hp : parseLine (trimSpace l) = .ok (key, value))
    (hc : (opts.overwrite || goGetenv env key == []) = false) :
    loadLines opts sf (l :: rest) env n = loadLines opts sf rest env n := by
  rw [loadLines]
  rw [if_neg h, hp]
  simp only [hc]
  rfl

/-- A failing `Setenv` aborts the load with the count accumulated so far;
the failed variable is not counted and the environment is unchanged. -/
theorem loadLines_setfail (opts : LoadOptions) (sf : GoStr → GoStr → Bool) (l : GoStr)
    (rest : List GoStr) (env : Env) (n : Nat) (key value : GoStr)
    (h : ¬(trimSpace l = [] ∨ [0x23].isPrefixOf (trimSpace l)))
    (hp : parseLine (trimSpace l) = .ok (key, value))
    (hc : (opts.overwrite || goGetenv env key == []) = true)
    (hsf : sf key value = true) :
    loadLines opts sf (l :: rest) env n = ⟨n, some (.setErr key), env, [], []⟩ := by
  rw [loadLines]
  rw [if_neg h, hp]
  simp only [hc, hsf]
  rfl

/-- The loader's count equals the number of environment mutations actually
performed, the final environment is exactly those mutations applied in
order, and no recorded mutation is a failing one. -/
theorem loadLines_invariants (opts : LoadOptions) (sf : GoStr → GoStr → Bool) :
    ∀ (ls : List GoStr) (env : Env) (n : Nat),
      (loadLines opts sf ls env n).loaded = n + (loadLines opts sf ls env n).applied.length ∧
      (loadLines opts sf ls env n).env
        = (loadLines opts sf ls env n).applied.foldl (fun e p => goSetenv e p.1 p.2) env ∧
      (∀ k v, (k, v) ∈ (loadLines opts sf ls env n).applied → sf k v = false) := by
  intro ls
  induction ls with
  | nil =>
    intro env n
    refine ⟨by simp [loadLines], by simp [loadLines], by simp [loadLines]⟩
  | cons l rest ih =>
    intro env n
    by_cases h : trimSpace l = [] ∨ [0x23].isPrefixOf (trimSpace l)
    · rw [loadLines_skip _ _ _ _ _ _ h]; exact ih env n
    · cases hp : parseLine (trimSpace l) with
      | error e =>
        rw [loadLines_perr _ _ _ _ _ _ e h hp]
        rcases ih env n with ⟨i1, i2, i3⟩
        cases hd : opts.debug <;> simp only [Bool.false_eq_true, ite_false, ite_true] <;>
          exact ⟨i1, i2, i3⟩
      | ok kv =>
        obtain ⟨key, value⟩ := kv
        by_cases hc : (opts.overwrite || goGetenv env key == []) = true
        · by_cases hsf : sf key value = true
          · rw [loadLines_setfail _ _ _ _ _ _ _ _ h hp hc hsf]
            exact ⟨by simp, by simp, by simp⟩
          · have hsf' : sf key value = false := by
              revert hsf; cases sf key value <;> simp
            rw [loadLines_set _ _ _ _ _ _ _ _ h hp hc hsf']
            rcases ih (goSetenv env key value) (n + 1) with ⟨i1, i2, i3⟩
            refine ⟨?_, ?_, ?_⟩
            · cases hd : opts.debug <;>
                simp only [hd, Bool.false_eq_true, ite_false, ite_true] <;>
                simp only [List.length_cons] <;> omega
            · cases hd : opts.debug <;>
                simp only [hd, Bool.false_eq_true, ite_false, ite_true] <;>
                simp only [List.foldl_cons] <;> exact i2
            · intro k v hm
              cases hd : opts.debug <;>
                simp only [hd, Bool.false_eq_true, ite_false, ite_true] at hm <;>
                simp only [List.mem_cons] at hm <;>
                rcases hm with he | hm
              · injection he with e1 e2; subst e1; subst e2; exact hsf'
              · exact i3 _ _ hm
              · injection he with e1 e2; subst e1; subst e2; exact hsf'
              · exact i3 _ _ hm
        · have hc' : (opts.overwrite || goGetenv env key == []) = false := by
            revert hc; cases (opts.overwrite || goGetenv env key == []) <;> simp
          rw [loadLines_noset _ _ _ _ _ _ _ _ h hp hc']
          exact ih env n

/-- The only error the line loop can produce is a failed `Setenv`. -/
theorem loadLines_err_classify (opts : LoadOptions) (sf : GoStr → GoStr → Bool) :
    ∀ (ls : List GoStr) (env : Env) (n : Nat),
      (loadLines opts sf ls env n).err = none ∨
        ∃ k, (loadLines opts sf ls env n).err = some (.setErr k) := by
  intro ls
  induction ls with
  | nil => intro env n; exact Or.inl rfl
  | cons l rest ih =>
    intro env n
    by_cases h : trimSpace l = [] ∨ [0x23].isPrefixOf (trimSpace l)
    · rw [loadLines_skip _ _ _ _ _ _ h]; exact ih env n
    · cases hp : parseLine (trimSpace l) with
      | error e =>
        rw [loadLines_perr _ _ _ _ _ _ e h hp]
        cases hd : opts.debug <;> simp only [Bool.false_eq_true, ite_false, ite_true] <;>
          exact ih env n
      | ok kv =>
        obtain ⟨key, value⟩ := kv
        by_cases hc : (opts.overwrite || goGetenv env key == []) = true
        · by_cases hsf : sf key value = true
          · rw [loadLines_setfail _ _ _ _ _ _ _ _ h hp hc hsf]
            exact Or.inr ⟨key, rfl⟩
          · have hsf' : sf key value = false := by
              revert hsf; cases sf key value <;> simp
            rw [loadLines_set _ _ _ _ _ _ _ _ h hp hc hsf']
            cases hd : opts.debug <;>
              simp only [hd, Bool.false_eq_true, ite_false, ite_true] <;>
              exact ih (goSetenv env key value) (n + 1)
        · have hc' : (opts.overwrite || goGetenv env key == []) = false := by
            revert hc; cases (opts.overwrite || goGetenv env key == []) <;> simp
          rw [loadLines_noset _ _ _ _ _ _ _ _ h hp hc']
          exact ih env n

/-!  Claim C4: the overwrite policy and the count. -/

/-- C4: a parsed line is applied exactly when Overwrite is true or the
variable is unset/empty in the environment, with the count incremented
exactly on an actual set; and the spec's concrete scenario: loading
`DB_PORT=8080`, `# comment`, `export NAME="A"` with Overwrite off and
`DB_PORT` already set yields count 1, sets `NAME` to `A`, and leaves
`DB_PORT` untouched. -/
theorem claim4_overwrite_policy :
    (∀ opts sf l rest env n key value,
        ¬(trimSpace l = [] ∨ [0x23].isPrefixOf (trimSpace l)) →
        parseLine (trimSpace l) = .ok (key, value) →
        (opts.overwrite || goGetenv env key == []) = true →
        sf key value = false →
        loadLines opts sf (l :: rest) env n =
          (let r := loadLines opts sf rest (goSetenv env key value) (n + 1)
           let r' := { r with applied := (key, value) :: r.applied }
           if opts.debug then { r' with log := .setVar key (maskValue value) :: r'.log }
           else r')) ∧
    (∀ opts sf l rest env n key value,
        ¬(trimSpace l = [] ∨ [0x23].isPrefixOf (trimSpace l)) →
        parseLine (trimSpace l) = .ok (key, value) →
        (opts.overwrite || goGetenv env key == []) = false →
        loadLines opts sf (l :: rest) env n = loadLines opts sf rest env n) ∧
    ((loadLines optsPlain noFail [dbPortLine, commentLine, exportNameLine] envDB 0).loaded = 1 ∧
     (loadLines optsPlain noFail [dbPortLine, commentLine, exportNameLine] envDB 0).err = none ∧
     (loadLines optsPlain noFail [dbPortLine, commentLine, exportNameLine] envDB 0).env nameKey
       = some [0x41] ∧
     (loadLines optsPlain noFail [dbPortLine, commentLine, exportNameLine] envDB 0).env dbPortKey
       = some [0x31, 0x32, 0x33, 0x34]) := by
  refine ⟨?_, ?_, by decide, by decide, by decide, by decide⟩
  · intro opts sf l rest env n key value h hp hc hsf
    exact loadLines_set opts sf l rest env n key value h hp hc hsf
  · intro opts sf l rest env n key value h hp hc
    exact loadLines_noset opts sf l rest env n key value h hp hc

/-- C4, witness: the two policy cases applied to `DB_PORT=8080` against an
empty environment (set) and against `envDB` (skipped). -/
theorem claim4_witness :
    loadLines optsPlain noFail [dbPortLine] (fun _ => none) 0 =
      (let r := loadLines optsPlain noFail []
         (goSetenv (fun _ => none) dbPortKey [0x38, 0x30, 0x38, 0x30]) (0 + 1)
       let r' := { r with applied := (dbPortKey, [0x38, 0x30, 0x38, 0x30]) :: r.applied }
       if optsPlain.debug then
         { r' with log := .setVar dbPortKey (maskValue [0x38, 0x30, 0x38, 0x30]) :: r'.log }
       else r') ∧
    loadLines optsPlain noFail [dbPortLine] envDB 0 = loadLines optsPlain noFail [] envDB 0 :=
  ⟨claim4_overwrite_policy.1 optsPlain noFail dbPortLine [] (fun _ => none) 0 dbPortKey
     [0x38, 0x30, 0x38, 0x30] (by decide) (by decide) (by decide) rfl,
   claim4_overwrite_policy.2.1 optsPlain noFail dbPortLine [] envDB 0 dbPortKey
     [0x38, 0x30, 0x38, 0x30] (by decide) (by decide) (by decide)⟩

/-!  Claim C5: error propagation preserves the count. -/

/-- C5: when the file is not found, `Load` returns count 0 with the
environment unchanged; a read error surfaces after the loop with the loop's
count intact; and in every run the count equals the number of mutations
actually performed, the final environment is exactly those mutations, and
no failing `Setenv` is ever counted. -/
theorem claim5_error_propagation :
    (∀ optsIn cwd stat contents sf env p,
        findEnvFile (parseOptions optsIn).pathname (parseOptions optsIn).maxLevels cwd stat
          = .error p →
        Load optsIn cwd stat contents sf env = ⟨0, some (.notFound p), env, [], []⟩) ∧
    (∀ lines opts sf env,
        (loadFromReader lines true opts sf env).loaded
          = (loadFromReader lines false opts sf env).loaded ∧
        ((loadLines opts sf lines env 0).err = none →
            loadFromReader lines true opts sf env
              = { loadLines opts sf lines env 0 with err := some .readErr })) ∧
    (∀ opts sf ls env n,
        (loadLines opts sf ls env n).loaded = n + (loadLines opts sf ls env n).applied.length ∧
        (loadLines opts sf ls env n).env
          = (loadLines opts sf ls env n).applied.foldl (fun e p => goSetenv e p.1 p.2) env ∧
        (∀ k v, (k, v) ∈ (loadLines opts sf ls env n).applied → sf k v = false)) := by
  refine ⟨?_, ?_, loadLines_invariants⟩
  · intro optsIn cwd stat contents sf env p h
    unfold Load
    simp only []
    rw [h]
  · intro lines opts sf env
    constructor
    · cases herr : (loadLines opts sf lines env 0).err with
      | none => simp [loadFromReader, herr]
      | some e => simp [loadFromReader, herr]
    · intro h
      simp [loadFromReader, h]

/-- C5, witness: a not-found load returning zero with the environment
unchanged, and a read error surfacing with the (empty) count preserved. -/
theorem claim5_witness :
    Load none [] (fun _ => false) (fun _ => ([], false)) noFail (fun _ => none)
      = ⟨0, some (.notFound dotEnv), (fun _ => none), [], []⟩ ∧
    loadFromReader [] true optsPlain noFail (fun _ => none)
      = { loadLines optsPlain noFail [] (fun _ => none) 0 with err := some .readErr } :=
  ⟨claim5_error_propagation.1 none [] (fun _ => false) (fun _ => ([], false)) noFail
     (fun _ => none) dotEnv (by decide),
   (claim5_error_propagation.2.1 [] optsPlain noFail (fun _ => none)).2 rfl⟩

/-!  Claim C6: parse errors are never fatal. -/

/-- C6: an empty or comment line is skipped outright; a line that fails to
parse is skipped, leaving count, environment, error and applied mutations
those of the remaining lines (only a debug log entry is added when Debug is
on); the line loop can only ever fail with a `Setenv` error, and the reader
only with a read or `Setenv` error — never a parse error. -/
theorem claim6_parse_error_recovery :
    (∀ opts sf l rest env n,
        trimSpace l = [] ∨ [0x23].isPrefixOf (trimSpace l) →
        loadLines opts sf (l :: rest) env n = loadLines opts sf rest env n) ∧
    (∀ opts sf l rest env n e,
        ¬(trimSpace l = [] ∨ [0x23].isPrefixOf (trimSpace l)) →
        parseLine (trimSpace l) = .error e →
        loadLines opts sf (l :: rest) env n =
          (if opts.debug then
            { loadLines opts sf rest env n with
                log := .skipInvalid (trimSpace l) :: (loadLines opts sf rest env n).log }
           else loadLines opts sf rest env n)) ∧
    (∀ opts sf ls env n,
        (loadLines opts sf ls env n).err = none ∨
          ∃ k, (loadLines opts sf ls env n).err = some (.setErr k)) ∧
    (∀ lines rf opts sf env,
        (loadFromReader lines rf opts sf env).err = none ∨
        (loadFromReader lines rf opts sf env).err = some .readErr ∨
        ∃ k, (loadFromReader lines rf opts sf env).err = some (.setErr k)) := by
  refine ⟨loadLines_skip, loadLines_perr, loadLines_err_classify, ?_⟩
  intro lines rf opts sf env
  rcases loadLines_err_classify opts sf lines env 0 with h | ⟨k, h⟩
  · cases rf <;> simp [loadFromReader, h]
  · simp [loadFromReader, h]

/-- C6, witness: a comment line skipped, and a delimiter-free line skipped
with no effect on the outcome (Debug off). -/
theorem claim6_witness :
    loadLines optsPlain noFail [commentLine] envDB 3 = loadLines optsPlain noFail [] envDB 3 ∧
    loadLines optsPlain noFail [[0x78]] envDB 0 =
      (if optsPlain.debug then
        { loadLines optsPlain noFail [] envDB 0 with
            log := .skipInvalid (trimSpace [0x78]) :: (loadLines optsPlain noFail [] envDB 0).log }
       else loadLines optsPlain noFail [] envDB 0) :=
  ⟨claim6_parse_error_recovery.1 optsPlain noFail commentLine [] envDB 3 (by decide),
   claim6_parse_error_recovery.2.1 optsPlain noFail [0x78] [] envDB 0 .missingDelimiter
     (by decide) (by decide)⟩

/-!  Claim C9: the file locator. -/

/-- The parent of a non-empty directory differs from it. -/
theorem dropLast_ne_self (dir : List GoStr) (h : dir ≠ []) : dir.dropLast ≠ dir := by
  intro he
  have hlen := congrArg List.length he
  rw [List.length_dropLast] at hlen
  have : dir.length ≠ 0 := fun h0 => h (List.length_eq_zero.mp h0)
  omega

/-- One-step equation for the climb loop. -/
theorem climb_step (stat : List GoStr → Bool) (n : Nat) (dir : List GoStr) :
    climb stat (n + 1) dir =
      (if dir.dropLast = dir then none
       else if stat dir.dropLast then some dir.dropLast
       else climb stat n dir.dropLast) := rfl

/-- The climb finds the nearest ancestor (level ≥ 1) within the depth and
root bounds at which the stat succeeds. -/
theorem climb_found (stat : List GoStr → Bool) :
    ∀ (n : Nat) (dir : List GoStr) (ℓ : Nat),
      1 ≤ ℓ → ℓ ≤ n → ℓ ≤ dir.length →
      stat (atLevel ℓ dir) = true →
      (∀ j, 1 ≤ j → j < ℓ → stat (atLevel j dir) = false) →
      climb stat n dir = some (atLevel ℓ dir) := by
  intro n
  induction n with
  | zero => intro dir ℓ h1 h2 _ _ _; omega
  | succ n ih =>
    intro dir ℓ h1 h2 h3 h4 h5
    have hdir : dir ≠ [] := by
      intro he
      subst he
      simp at h3
      omega
    rw [climb_step, if_neg (dropLast_ne_self dir hdir)]
    rcases Nat.lt_or_ge 1 ℓ with hgt | hle
    · have hfalse : stat dir.dropLast = false := h5 1 (Nat.le_refl 1) hgt
      rw [if_neg (by rw [hfalse]; exact Bool.false_ne_true)]
      obtain ⟨ℓ', rfl⟩ : ∃ ℓ', ℓ = ℓ' + 1 := ⟨ℓ - 1, by omega⟩
      have hlen : dir.length ≠ 0 := fun h0 => hdir (List.length_eq_zero.mp h0)
      exact ih dir.dropLast ℓ' (by omega) (by omega)
        (by rw [List.length_dropLast]; omega) h4
        (fun j hj1 hj2 => h5 (j + 1) (by omega) (by omega))
    · have hl1 : ℓ = 1 := by omega
      subst hl1
      have h4' : stat dir.dropLast = true := h4
      rw [if_pos h4']
      rfl

/-- When no ancestor within the bounds carries the file, the climb fails. -/
theorem climb_missing (stat : List GoStr → Bool) :
    ∀ (n : Nat) (dir : List GoStr),
      (∀ ℓ, 1 ≤ ℓ → ℓ ≤ n → ℓ ≤ dir.length → stat (atLevel ℓ dir) = false) →
      climb stat n dir = none := by
  intro n
  induction n with
  | zero => intro dir _; rfl
  | succ n ih =>
    intro dir hall
    by_cases hdir : dir = []
    · subst hdir
      rfl
    · rw [climb_step, if_neg (dropLast_ne_self dir hdir)]
      have hlen : dir.length ≠ 0 := fun h0 => hdir (List.length_eq_zero.mp h0)
      have hfalse : stat dir.dropLast = false := hall 1 (Nat.le_refl 1) (by omega) (by omega)
      rw [if_neg (by rw [hfalse]; exact Bool.false_ne_true)]
      exact ih dir.dropLast fun ℓ h1 h2 h3 =>
        hall (ℓ + 1) (by omega) (by omega) (by rw [List.length_dropLast] at h3; omega)

/-- C9: `findEnvFile` returns the nearest level (current directory first,
then successive parents, at most `maxLevels` of them and never past the
root) at which the stat succeeds; when no level within the bounds succeeds
it fails with an error carrying exactly the requested pathname; and the
spec's example: with maxDepth 3 and the file present two levels up (and
also at the root), the level-2 path is returned — the search does not
continue past the nearest match. -/
theorem claim9_file_locator :
    (∀ (pathname : GoStr) (maxLevels : Int) (cwd : List GoStr) (stat : List GoStr → Bool)
        (ℓ : Nat),
        ℓ ≤ maxLevels.toNat → ℓ ≤ cwd.length →
        stat (atLevel ℓ cwd) = true →
        (∀ j, j < ℓ → stat (atLevel j cwd) = false) →
        findEnvFile pathname maxLevels cwd stat = .ok (atLevel ℓ cwd)) ∧
    (∀ (pathname : GoStr) (maxLevels : Int) (cwd : List GoStr) (stat : List GoStr → Bool),
        (∀ ℓ, ℓ ≤ maxLevels.toNat → ℓ ≤ cwd.length → stat (atLevel ℓ cwd) = false) →
        findEnvFile pathname maxLevels cwd stat = .error pathname) ∧
    (∀ (pathname : GoStr) (maxLevels : Int) (cwd : List GoStr) (stat : List GoStr → Bool)
        (e : GoStr),
        findEnvFile pathname maxLevels cwd stat = .error e → e = pathname) ∧
    findEnvFile dotEnv 3 [[0x61], [0x62], [0x63]]
        (fun d => d == [[0x61]] || d == []) = .ok (atLevel 2 [[0x61], [0x62], [0x63]]) := by
  refine ⟨?_, ?_, ?_, by decide⟩
  · intro pathname maxLevels cwd stat ℓ h1 h2 h3 h4
    unfold findEnvFile
    rcases Nat.eq_zero_or_pos ℓ with h0 | hpos
    · subst h0
      have h3' : stat cwd = true := h3
      rw [if_pos h3']
      rfl
    · have hcwd : stat cwd = false := h4 0 hpos
      rw [if_neg (by rw [hcwd]; exact Bool.false_ne_true)]
      rw [climb_found stat maxLevels.toNat cwd ℓ hpos h1 h2 h3
        (fun j hj1 hj2 => h4 j hj2)]
  · intro pathname maxLevels cwd stat hall
    have hcwd : stat cwd = false := hall 0 (Nat.zero_le _) (Nat.zero_le _)
    unfold findEnvFile
    rw [if_neg (by rw [hcwd]; exact Bool.false_ne_true)]
    rw [climb_missing stat maxLevels.toNat cwd
      (fun ℓ hl1 hl2 hl3 => hall ℓ hl2 hl3)]
  · intro pathname maxLevels cwd stat e h
    unfold findEnvFile at h
    by_cases hs : stat cwd = true
    · rw [if_pos hs] at h
      exact Except.noConfusion h
    · rw [if_neg hs] at h
      cases hcl : climb stat maxLevels.toNat cwd with
      | some d => rw [hcl] at h; exact Except.noConfusion h
      | none => rw [hcl] at h; injection h with h'; exact h'.symm

/-- C9, witness: the nearest-match case applied one level up, and the
not-found case applied at the root. -/
theorem claim9_witness :
    findEnvFile dotEnv 3 [[0x61], [0x62]] (fun d => d == [[0x61]])
      = .ok (atLevel 1 [[0x61], [0x62]]) ∧
    findEnvFile dotEnv 3 [] (fun _ => false) = .error dotEnv :=
  ⟨claim9_file_locator.1 dotEnv 3 [[0x61], [0x62]] (fun d => d == [[0x61]]) 1
     (by decide) (by decide) (by decide) (by decide),
   claim9_file_locator.2.1 dotEnv 3 [] (fun _ => false) (fun ℓ h1 h2 => by
     have h0 : ℓ = 0 := Nat.le_zero.mp h2
     subst h0
     rfl)⟩
